import Mathlib

/-!
Verification of the HomePasss backend (src/api.py): a shallow embedding of
the CSV import pipeline (`insert_apartments_from_csv`, `import_csv`), the
image URL resolver (`_resolve_image_url`), and the row enricher
(`_get_image_paths`, `_attach_images`), together with theorems settling the
frozen claims about them.

Modelling conventions:
* Python strings are Lean `String`s; character-level operations work on
  `String.data`.  Character predicates (whitespace, digits, lower-casing)
  are modelled by their ASCII behaviour; the code only ever compares against
  ASCII constants.
* `float(...)` / `Decimal(...)` string parsing is modelled by an exact
  grammar-level parser producing a coefficient/exponent pair.  For `float`,
  values whose exact magnitude reaches the IEEE-754 double overflow
  threshold are mapped to infinity, as `float` does; mantissa rounding to 53
  bits below that threshold is not modelled, and truncation (`int(...)`)
  acts on the exact value.
* The database is modelled as in-memory lists; each SQL statement of the
  source is translated into the corresponding list operation.  An uncaught
  Python exception inside the import loop is modelled as `none` / a
  server-error outcome.
-/

/-! ### Python string helpers -/

/-- The characters removed by Python `str.strip()` (ASCII whitespace). -/
def isSpaceChar (c : Char) : Bool :=
  c = ' ' ∨ c = '\t' ∨ c = '\n' ∨ c = '\r' ∨ c = '\x0b' ∨ c = '\x0c'

/-- Python `str.strip()` on a character list. -/
def pyStrip (cs : List Char) : List Char :=
  ((cs.dropWhile isSpaceChar).reverse.dropWhile isSpaceChar).reverse

/-- Python `s.strip()`. -/
def stripS (s : String) : String := String.mk (pyStrip s.data)

/-- Python `s.replace(",", "").strip()`, as applied to the area and cost
fields of a CSV row. -/
def cleanNum (s : String) : String := String.mk (pyStrip (s.data.filter (· ≠ ',')))

/-- Python `a or b` for an optional string `a` (absent and empty strings are
falsy and fall through to `b`). -/
def pyOrS (a : Option String) (b : String) : String :=
  match a with
  | none => b
  | some s => if s = "" then b else s

/-! ### Numeric-string parsing (`float(...)` and `Decimal(...)`)

Both accept an optional sign, a mantissa `digits [. digits]` (at least one
digit overall, underscores allowed between digits), an optional exponent
`e [sign] digits`, and the special spellings of infinity and NaN,
case-insensitively. -/

/-- Consume a digit group in which single underscores may appear between
digits, returning its value and number of digits; the first character of the
input has already been checked to be a digit by `digitGroup`. -/
def dgAfterDigit : Nat → Nat → List Char → Option (Nat × Nat)
  | acc, n, [] => some (acc, n)
  | acc, n, '_' :: rest =>
    match rest with
    | [] => none
    | c :: rest' =>
      if c.isDigit then dgAfterDigit (10 * acc + (c.toNat - 48)) (n + 1) rest' else none
  | acc, n, c :: rest =>
    if c.isDigit then dgAfterDigit (10 * acc + (c.toNat - 48)) (n + 1) rest else none

/-- Parse a full digit group (`digit (_? digit)*`); `none` when the input is
empty, starts with an underscore, or has misplaced underscores. -/
def digitGroup : List Char → Option (Nat × Nat)
  | [] => none
  | '_' :: _ => none
  | cs => dgAfterDigit 0 0 cs

/-- A digit group that is allowed to be absent (used for the integer and
fraction parts around a decimal point). -/
def optDigitGroup (cs : List Char) : Option (Nat × Nat) :=
  if cs = [] then some (0, 0) else digitGroup cs

/-- Split a list at the first occurrence of `t`; `none` if `t` is absent. -/
def splitFirst (t : Char) : List Char → Option (List Char × List Char)
  | [] => none
  | c :: rest =>
    if c = t then some ([], rest)
    else (splitFirst t rest).map (fun ab => (c :: ab.1, ab.2))

/-- Parse an optional sign; returns the negativity flag and the rest. -/
def parseSign : List Char → Bool × List Char
  | '-' :: rest => (true, rest)
  | '+' :: rest => (false, rest)
  | cs => (false, cs)

/-- Parse a mantissa `digits [. [digits]] | [.] digits` into the scaled
integer value and the number of fraction digits. -/
def parseMantissa (cs : List Char) : Option (Nat × Nat) :=
  match splitFirst '.' cs with
  | none => (digitGroup cs).map (fun vn => (vn.1, 0))
  | some (i, f) =>
    match optDigitGroup i, optDigitGroup f with
    | some (iv, inD), some (fv, fnD) =>
      if inD + fnD = 0 then none else some (iv * 10 ^ fnD + fv, fnD)
    | _, _ => none

/-- Parse the numeric (finite) part of a float/decimal string that has
already been lower-cased and stripped of its sign: mantissa plus optional
exponent; returns unsigned coefficient and exponent. -/
def parseNumericValue (cs : List Char) : Option (Nat × Int) :=
  match splitFirst 'e' cs with
  | none => (parseMantissa cs).map (fun vf => (vf.1, -(vf.2 : Int)))
  | some (m, ex) =>
    let se := parseSign ex
    match parseMantissa m, digitGroup se.2 with
    | some (v, fd), some (ev, _) =>
      some (v, (if se.1 then -(ev : Int) else (ev : Int)) - (fd : Int))
    | _, _ => none

/-- The value space of parsed Python numbers: a finite value
`coeff * 10 ^ exp`, a signed infinity, or NaN. -/
inductive PyNum where
  | finite (coeff : Int) (exp : Int)
  | inf (neg : Bool)
  | nan
deriving DecidableEq, Repr

/-- Payload digits allowed after `nan` / `snan` in a decimal string. -/
def isNanPayload (cs : List Char) : Bool := cs = [] ∨ (digitGroup cs).isSome

/-- Python `Decimal(s)` on an already-stripped string: the exact
coefficient/exponent of the decimal literal, or a special value, or `none`
for `InvalidOperation`. -/
def parsePyDecimal (s : String) : Option PyNum :=
  let cs0 := s.data.map Char.toLower
  let sc := parseSign cs0
  let cs := sc.2
  if cs = ['i', 'n', 'f'] ∨ cs = ['i', 'n', 'f', 'i', 'n', 'i', 't', 'y'] then
    some (.inf sc.1)
  else if ['n', 'a', 'n'].isPrefixOf cs ∧ isNanPayload (cs.drop 3) then some .nan
  else if ['s', 'n', 'a', 'n'].isPrefixOf cs ∧ isNanPayload (cs.drop 4) then some .nan
  else
    (parseNumericValue cs).map
      (fun ce => .finite (if sc.1 then -(ce.1 : Int) else (ce.1 : Int)) ce.2)

/-- Magnitudes at or above this bound round to infinity in IEEE-754 binary64
(`2 ^ 1024 - 2 ^ 970` is the first real that rounds up to `2 ^ 1024`). -/
def floatOverflows (c : Int) (e : Int) : Bool :=
  let a := c.natAbs
  let T : Nat := 2 ^ 1024 - 2 ^ 970
  if 0 ≤ e then T ≤ a * 10 ^ e.toNat else T * 10 ^ (-e).toNat ≤ a

/-- Python `float(s)` on an already-stripped string, with the exact value of
the literal (see the header note on rounding); overflowing literals give
infinity, as in Python. -/
def parsePyFloat (s : String) : Option PyNum :=
  let cs0 := s.data.map Char.toLower
  let sc := parseSign cs0
  let cs := sc.2
  if cs = ['i', 'n', 'f'] ∨ cs = ['i', 'n', 'f', 'i', 'n', 'i', 't', 'y'] then
    some (.inf sc.1)
  else if cs = ['n', 'a', 'n'] then some .nan
  else
    match parseNumericValue cs with
    | none => none
    | some (c, e) =>
      let c' : Int := if sc.1 then -(c : Int) else (c : Int)
      if floatOverflows c' e then some (.inf sc.1) else some (.finite c' e)

/-- Truncation toward zero of `a / b` for a positive denominator, as
`int(...)` truncates a float. -/
def truncDiv (a : Int) (b : Nat) : Int :=
  if 0 ≤ a then ((a.natAbs / b : Nat) : Int) else -((a.natAbs / b : Nat) : Int)

/-- Python `int(f)` for a finite float of exact value `c * 10 ^ e`. -/
def intOfFloat (c : Int) (e : Int) : Int :=
  if 0 ≤ e then c * ((10 ^ e.toNat : Nat) : Int) else truncDiv c (10 ^ (-e).toNat)

/-- The rational value `c * 10 ^ e` of a finite parsed decimal. -/
def decValue (c : Int) (e : Int) : ℚ :=
  if 0 ≤ e then ((c * 10 ^ e.toNat : Int) : ℚ)
  else (c : ℚ) / ((10 ^ (-e).toNat : Nat) : ℚ)

/-! ### CSV rows and field extraction -/

/-- A CSV row as produced by `csv.DictReader`: an association from column
names to values, where a value of `none` models a column that is absent or
filled with `None` for a short row (`row.get` returns `None` in both
cases). -/
def Row : Type := List (String × Option String)

instance : DecidableEq Row := inferInstanceAs (DecidableEq (List (String × Option String)))

/-- Python `row.get(k)`. -/
def rowGet (r : Row) (k : String) : Option String :=
  match r.find? (fun kv => kv.1 = k) with
  | none => none
  | some kv => kv.2

/-- `(row.get("title") or row.get("name") or row.get("url") or "").strip()`. -/
def nameOf (row : Row) : String :=
  stripS (pyOrS (rowGet row "title") (pyOrS (rowGet row "name") (pyOrS (rowGet row "url") "")))

/-- `(row.get("address") or row.get("adress") or "").strip()`. -/
def addressOf (row : Row) : String :=
  stripS (pyOrS (rowGet row "address") (pyOrS (rowGet row "adress") ""))

/-- `(row.get("area_m2") or row.get("area") or "").replace(",", "").strip()`. -/
def areaRawOf (row : Row) : String :=
  cleanNum (pyOrS (rowGet row "area_m2") (pyOrS (rowGet row "area") ""))

/-- `(row.get("price_usd") or row.get("cost") or "").replace(",", "").strip()`. -/
def priceRawOf (row : Row) : String :=
  cleanNum (pyOrS (rowGet row "price_usd") (pyOrS (rowGet row "cost") ""))

/-- `(row.get("type") or "Flat").strip()`. -/
def typeOf (row : Row) : String := stripS (pyOrS (rowGet row "type") "Flat")

/-! ### The listing table and the import loop -/

/-- A row of the `apartaments` table as written by the import pipeline. -/
structure Listing where
  user_id : Int
  name : String
  adress : String
  area : Int
  cost : PyNum
  tokens : Int
  type : String
deriving DecidableEq, Repr

/-- The outcome of validating one CSV row: silently skipped (`continue`),
an uncaught exception (`OverflowError` from `int(float("inf"))`), or a
candidate listing to be checked against the dedup query. -/
inductive RowResult where
  | skip
  | err
  | cand (l : Listing)
deriving DecidableEq, Repr

/-- The per-row field mapping and validation of `insert_apartments_from_csv`
(lines 140-157 of src/api.py), before the dedup lookup. -/
def parseRow (uid : Int) (row : Row) : RowResult :=
  if nameOf row = "" ∨ addressOf row = "" then .skip
  else
    match parsePyFloat (areaRawOf row) with
    | none => .skip
    | some PyNum.nan => .skip
    | some (PyNum.inf _) => .err
    | some (PyNum.finite c e) =>
      match parsePyDecimal (priceRawOf row) with
      | none => .skip
      | some d => .cand ⟨uid, nameOf row, addressOf row, intOfFloat c e, d, 0, typeOf row⟩

/-- The predicate of the dedup query
`SELECT 1 FROM apartaments WHERE name = %s AND adress = %s AND user_id = %s`. -/
def keyMatch (name adress : String) (uid : Int) (l : Listing) : Bool :=
  l.name = name ∧ l.adress = adress ∧ l.user_id = uid

/-- Whether the dedup query returns a row against the listings visible on
the import's cursor. -/
def dedupHit (st : List Listing) (name adress : String) (uid : Int) : Bool :=
  st.any (keyMatch name adress uid)

/-- The row loop of `insert_apartments_from_csv`: processes the parsed CSV
rows in file order against the listing table `st`, returning the final table
and the inserted count, or `none` when an uncaught exception aborts the
loop.  The file-existence check of the source lives in `import_csv` below,
which is the only caller. -/
def insert_apartments_from_csv (uid : Int) : List Row → List Listing → Option (List Listing × Nat)
  | [], st => some (st, 0)
  | r :: rs, st =>
    match parseRow uid r with
    | RowResult.err => none
    | RowResult.skip => insert_apartments_from_csv uid rs st
    | RowResult.cand l =>
      if dedupHit st l.name l.adress uid then insert_apartments_from_csv uid rs st
      else
        match insert_apartments_from_csv uid rs (st ++ [l]) with
        | none => none
        | some (st', n) => some (st', n + 1)

/-! ### Path handling and the image URL resolver -/

/-- Split a character list on `'/'`, keeping empty segments (Python
`s.split("/")`). -/
def splitSlash : List Char → List (List Char)
  | [] => [[]]
  | c :: rest =>
    if c = '/' then [] :: splitSlash rest
    else
      match splitSlash rest with
      | [] => [[c]]
      | s :: ss => (c :: s) :: ss

/-- The non-empty slash-separated segments of a string's characters. -/
def rawSegsL (cs : List Char) : List (List Char) := (splitSlash cs).filter (· ≠ [])

/-- The segments after `pathlib` normalisation, which also drops lone-dot
segments (`PurePosixPath` collapses `.` and duplicate separators). -/
def pathSegsL (cs : List Char) : List (List Char) := (rawSegsL cs).filter (· ≠ ['.'])

/-- `PurePosixPath.is_absolute()`: the string starts with a slash. -/
def isAbsL : List Char → Bool
  | '/' :: _ => true
  | _ => false

/-- The segments of `PICTURES_ROOT = /srv/homepass/pictures`. -/
def rootSegsL : List (List Char) :=
  [['s', 'r', 'v'], ['h', 'o', 'm', 'e', 'p', 'a', 's', 's'],
   ['p', 'i', 'c', 't', 'u', 'r', 'e', 's']]

/-- The characters of the literal `"pictures"`. -/
def picSeg : List Char := ['p', 'i', 'c', 't', 'u', 'r', 'e', 's']

/-- Per-character ASCII lower-casing of a segment (Python `str.lower()`,
which the code compares against the ASCII constant `"pictures"`). -/
def lowerSeg (s : List Char) : List Char := s.map Char.toLower

/-- Python `"/".join(parts)` on character-list segments. -/
def joinSegs : List (List Char) → List Char
  | [] => []
  | [s] => s
  | s :: rest => s ++ '/' :: joinSegs rest

/-- Lines 61-68 of src/api.py: `Path(value)`, the attempted
`relative_to(PICTURES_ROOT)` for absolute paths, and the slash-split of
`as_posix()` with empty segments discarded.  A path whose normalised
segment list is empty renders as `"/"` when absolute (no parts survive) and
as `"."` when relative (`Path('.')`), the latter also being the result of a
successful `relative_to` with nothing left. -/
def resolverParts (cs : List Char) : List (List Char) :=
  let segs := pathSegsL cs
  if isAbsL cs && rootSegsL.isPrefixOf segs then
    match segs.drop rootSegsL.length with
    | [] => [['.']]
    | rest => rest
  else if segs = [] then (if isAbsL cs then [] else [['.']]) else segs

/-- Lines 69-70 of src/api.py: drop a leading segment equal to `"pictures"`
case-insensitively. -/
def dropLeadingPics : List (List Char) → List (List Char)
  | [] => []
  | p :: rest => if lowerSeg p = picSeg then rest else p :: rest

/-- The configured base URL for pictures. -/
def PICTURES_URL_BASE : String := "http://jumbo.galagen.net:2205/pictures"

/-- The scheme-and-host portion of the base URL; what follows it in a
resolved URL is the URL's path. -/
def URL_HOST : String := "http://jumbo.galagen.net:2205"

/-- `_resolve_image_url` of src/api.py. -/
def _resolve_image_url (value : Option String) : Option String :=
  match value with
  | none => none
  | some v =>
    if v = "" then none
    else
      let parts := dropLeadingPics (resolverParts v.data)
      if parts = [] then none
      else some (String.mk (PICTURES_URL_BASE.data ++ '/' :: joinSegs parts))

/-- The path portion of a resolved URL: what remains after the
scheme-and-host prefix. -/
def urlPathPortion (u : String) : String := String.mk (u.data.drop URL_HOST.data.length)

/-- `str(Path(p))` for the paths echoed by the import endpoint: `pathlib`
rendering of the normalised segments. -/
def pathStr (p : String) : String :=
  if pathSegsL p.data = [] then (if isAbsL p.data then "/" else ".")
  else
    String.mk ((if isAbsL p.data then ['/'] else []) ++ joinSegs (pathSegsL p.data))

/-! ### Pictures and the row enricher -/

/-- A row of the `pictures` table. -/
structure Picture where
  id : Int
  apartment_id : Int
  file_path : Option String
  is_primary : Bool
deriving DecidableEq, Repr

/-- The ordering of `ORDER BY is_primary DESC, id`: primary pictures first,
then ascending identifiers. -/
def picLE (a b : Picture) : Prop :=
  (a.is_primary = b.is_primary ∧ a.id ≤ b.id) ∨ (a.is_primary = true ∧ b.is_primary = false)

instance : DecidableRel picLE := fun a b =>
  inferInstanceAs (Decidable ((a.is_primary = b.is_primary ∧ a.id ≤ b.id) ∨
    (a.is_primary = true ∧ b.is_primary = false)))

instance : IsTotal Picture picLE := by
  constructor
  intro a b
  unfold picLE
  cases ha : a.is_primary <;> cases hb : b.is_primary <;>
    rcases Int.le_total a.id b.id with h | h <;> simp [ha, hb, h]

instance : IsTrans Picture picLE := by
  constructor
  intro a b c h1 h2
  unfold picLE at *
  rcases h1 with ⟨e1, le1⟩ | ⟨p1, q1⟩ <;> rcases h2 with ⟨e2, le2⟩ | ⟨p2, q2⟩
  · exact Or.inl ⟨e1.trans e2, le1.trans le2⟩
  · exact Or.inr ⟨e1 ▸ p2, q2⟩
  · exact Or.inr ⟨p1, e2 ▸ q1⟩
  · rw [q1] at p2; exact absurd p2 (by simp)

/-- The query of `_get_image_paths` before projection: pictures of the given
listing, ordered primary-first then by identifier ascending. -/
def picQuery (pics : List Picture) (aid : Int) : List Picture :=
  (pics.filter (fun p => p.apartment_id = aid)).insertionSort picLE

/-- `_get_image_paths` of src/api.py: the ordered file paths (a stored path
may be NULL, hence `Option`). -/
def _get_image_paths (pics : List Picture) (aid : Int) : List (Option String) :=
  (picQuery pics aid).map Picture.file_path

/-- The truthiness filter of the comprehension in `_attach_images`: a
resolved URL is kept when it is neither `None` nor empty. -/
def keepTruthy (o : Option String) : Option String :=
  match _resolve_image_url o with
  | none => none
  | some s => if s = "" then none else some s

/-- The `images` value `_attach_images` computes for one listing id. -/
def imagesFor (pics : List Picture) (aid : Int) : List String :=
  (_get_image_paths pics aid).filterMap keepTruthy

/-- A listing row as selected by the read endpoints (the `SELECT` of
`/houses`), with its `images` field to be filled by the enricher. -/
structure ListingRead where
  id : Int
  name : String
  adress : String
  area : Option Int
  cost : Option PyNum
  tokens : Option Int
  type : Option String
  images : List String
deriving DecidableEq, Repr

/-- `_attach_images` of src/api.py: assign `images` on every row. -/
def _attach_images (pics : List Picture) (rows : List ListingRead) : List ListingRead :=
  rows.map (fun r => { r with images := imagesFor pics r.id })

/-! ### The users table and the HTTP endpoints -/

/-- A row of the `users` table. -/
structure User where
  id : Int
  wallet : String
  name : String
  surname : String
deriving DecidableEq, Repr

/-- The persistent state visible to the endpoints. -/
structure Db where
  users : List User
  apartaments : List Listing
deriving DecidableEq, Repr

/-- `ensure_user_exists` of src/api.py. -/
def ensure_user_exists (users : List User) (uid : Int) : Bool :=
  users.any (fun u => u.id = uid)

/-- The outcome of a request: a value, an `HTTPException`, or an uncaught
exception surfacing as a server fault. -/
inductive ApiResult (α : Type) where
  | ok (a : α)
  | httpError (status : Nat) (detail : String)
  | serverError
deriving DecidableEq

/-- `GET /user/{user_id}` (src/api.py lines 232-252): fetch one user row,
404 when absent. -/
def get_user (users : List User) (uid : Int) : ApiResult User :=
  match users.find? (fun u => u.id = uid) with
  | none => .httpError 404 "User not found"
  | some u => .ok u

/-- The default server-side CSV location `SERVER_CSV`. -/
def SERVER_CSV : String := "/srv/homepass/homes.csv"

/-- The file system visible to the import endpoint: existing CSV files with
their parsed rows, keyed by the rendered path. -/
def Files : Type := List (String × List Row)

/-- The path the import endpoint operates on: an absent or empty `csv_path`
falls back to `SERVER_CSV` (`path = Path(csv_path) if csv_path else
SERVER_CSV`), rendered as `str(path)`. -/
def resolvedCsvPath (csv_path : Option String) : String :=
  pathStr (match csv_path with
    | some p => if p = "" then SERVER_CSV else p
    | none => SERVER_CSV)

/-- `POST /import_csv` (src/api.py lines 257-277): check the user, resolve
the path, check the file, run the pipeline on one cursor, and commit.  The
success payload carries `source_csv` and `inserted_apartments`, here
together with the committed table. -/
def import_csv (db : Db) (files : Files) (user_id : Int) (csv_path : Option String) :
    ApiResult (String × Nat × List Listing) :=
  if ¬ ensure_user_exists db.users user_id then .httpError 404 "User not found"
  else
    match (files.find? (fun f => f.1 = resolvedCsvPath csv_path)).map (fun f => f.2) with
    | none => .httpError 404 (resolvedCsvPath csv_path ++ " not found")
    | some rows =>
      match insert_apartments_from_csv user_id rows db.apartaments with
      | none => .serverError
      | some (st, n) => .ok (resolvedCsvPath csv_path, n, st)

/-! ### Helper lemmas about the import loop -/

theorem parseRow_cand {uid : Int} {row : Row} {l : Listing}
    (h : parseRow uid row = RowResult.cand l) :
    l.user_id = uid ∧ l.name = nameOf row ∧ l.adress = addressOf row ∧
      l.tokens = 0 ∧ l.type = typeOf row ∧ nameOf row ≠ "" ∧ addressOf row ≠ "" ∧
      parsePyDecimal (priceRawOf row) = some l.cost ∧
      ∃ c e, parsePyFloat (areaRawOf row) = some (PyNum.finite c e) ∧
        l.area = intOfFloat c e := by
  unfold parseRow at h
  split at h
  · cases h
  · next hcond =>
    push_neg at hcond
    split at h
    · cases h
    · cases h
    · cases h
    · next c e hfl =>
      split at h
      · cases h
      · next d hd =>
        injection h with h'
        subst h'
        exact ⟨rfl, rfl, rfl, rfl, rfl, hcond.1, hcond.2, hd, c, e, hfl, rfl⟩

theorem insert_rows_subset {uid : Int} : ∀ {rows : List Row} {st st' : List Listing} {n : Nat},
    insert_apartments_from_csv uid rows st = some (st', n) → st ⊆ st' := by
  intro rows
  induction rows with
  | nil =>
    intro st st' n h
    simp only [insert_apartments_from_csv, Option.some.injEq, Prod.mk.injEq] at h
    exact h.1 ▸ List.Subset.refl st
  | cons r rs ih =>
    intro st st' n h
    unfold insert_apartments_from_csv at h
    split at h
    · cases h
    · exact ih h
    · split at h
      · exact ih h
      · split at h
        · cases h
        · next heq =>
          simp only [Option.some.injEq, Prod.mk.injEq] at h
          exact h.1 ▸ (List.subset_append_left st _).trans (ih heq)

theorem dedupHit_of_mem {st : List Listing} {l : Listing} (hm : l ∈ st) :
    dedupHit st l.name l.adress l.user_id = true := by
  unfold dedupHit
  rw [List.any_eq_true]
  exact ⟨l, hm, by simp [keyMatch]⟩

theorem dedupHit_mono {st st' : List Listing} {nm ad : String} {uid : Int}
    (hsub : st ⊆ st') (h : dedupHit st nm ad uid = true) : dedupHit st' nm ad uid = true := by
  unfold dedupHit at h ⊢
  rw [List.any_eq_true] at h ⊢
  obtain ⟨l, hl, hk⟩ := h
  exact ⟨l, hsub hl, hk⟩

theorem insert_rows_rerun {uid : Int} : ∀ {rows : List Row} {st st1 : List Listing} {n : Nat},
    insert_apartments_from_csv uid rows st = some (st1, n) →
    insert_apartments_from_csv uid rows st1 = some (st1, 0) := by
  intro rows
  induction rows with
  | nil =>
    intro st st1 n h
    simp only [insert_apartments_from_csv, Option.some.injEq, Prod.mk.injEq] at h
    simp [insert_apartments_from_csv, h.1]
  | cons r rs ih =>
    intro st st1 n h
    rcases hpr : parseRow uid r with _ | _ | l <;>
      simp only [insert_apartments_from_csv, hpr] at h ⊢
    · exact ih h
    · cases h
    · split at h
      · next hd =>
        have hsub := insert_rows_subset h
        rw [if_pos (dedupHit_mono hsub hd)]
        exact ih h
      · next hd =>
        split at h
        · cases h
        · next st2 n2 heq =>
          simp only [Option.some.injEq, Prod.mk.injEq] at h
          obtain ⟨h1, -⟩ := h
          subst h1
          have hsub := insert_rows_subset heq
          have hmem : l ∈ st2 := hsub (List.mem_append_right st (List.mem_singleton_self l))
          have huid := (parseRow_cand hpr).1
          have hhit : dedupHit st2 l.name l.adress uid = true := huid ▸ dedupHit_of_mem hmem
          rw [if_pos hhit]
          exact ih heq

/-- C1: running the import a second time with the same file and owner,
against the committed result of a successful first run, is not an error: it
returns success with an inserted count of 0 and leaves the listing table
unchanged, every row now matching an existing (name, address, owner) key
and being skipped silently. -/
theorem c1_reimport_inserts_zero (users : List User) (apts : List Listing) (files : Files)
    (uid : Int) (p : Option String) (src : String) (n : Nat) (st1 : List Listing)
    (h : import_csv ⟨users, apts⟩ files uid p = ApiResult.ok (src, n, st1)) :
    import_csv ⟨users, st1⟩ files uid p = ApiResult.ok (src, 0, st1) := by
  unfold import_csv at h ⊢
  split at h
  · cases h
  · next hu =>
    rw [if_neg hu]
    split at h
    · cases h
    · next rows hrows =>
      split at h
      · cases h
      · next st2 n2 hins =>
        simp only [ApiResult.ok.injEq, Prod.mk.injEq] at h
        obtain ⟨h1, -, h3⟩ := h
        subst h3
        rw [insert_rows_rerun hins]
        show ApiResult.ok (resolvedCsvPath p, 0, st2) = ApiResult.ok (src, 0, st2)
        rw [h1]

set_option maxRecDepth 100000 in
set_option exponentiation.threshold 1100 in
/-- C1 witness: importing one concrete row into an empty store succeeds with
one insert; re-running the same import on the committed store returns 0. -/
theorem c1_reimport_inserts_zero_witness :
    import_csv ⟨[⟨1, "w", "n", "s"⟩],
        [⟨1, "Casa", "Main St 1", 50, PyNum.finite 100 0, 0, "Flat"⟩]⟩
      [("/srv/homepass/homes.csv",
        [[("title", some "Casa"), ("address", some "Main St 1"),
          ("area_m2", some "50"), ("price_usd", some "100")]])] 1 none =
      ApiResult.ok ("/srv/homepass/homes.csv", 0,
        [⟨1, "Casa", "Main St 1", 50, PyNum.finite 100 0, 0, "Flat"⟩]) :=
  c1_reimport_inserts_zero [⟨1, "w", "n", "s"⟩] [] _ 1 none _ 1 _ (by decide)

/-- The number of listings in a table matching one dedup key. -/
def keyCount (st : List Listing) (nm ad : String) (uid : Int) : Nat :=
  st.countP (keyMatch nm ad uid)

theorem dedupHit_false_count {st : List Listing} {nm ad : String} {uid : Int}
    (h : dedupHit st nm ad uid = false) : keyCount st nm ad uid = 0 := by
  unfold dedupHit at h
  unfold keyCount
  rw [List.countP_eq_zero]
  intro a ha
  exact List.any_eq_false.mp h a ha

/-- C10: within a single import invocation, rows sharing the same
(name, address, owner) dedup key are inserted at most once — whatever the
store held before, the final table holds at most `max prior 1` listings with
any given key, because a later in-file duplicate sees the earlier insert on
the same cursor and is skipped. -/
theorem c10_infile_dedup_at_most_once : ∀ (uid : Int) (rows : List Row)
    (st st' : List Listing) (n : Nat) (nm ad : String) (u : Int),
    insert_apartments_from_csv uid rows st = some (st', n) →
    keyCount st' nm ad u ≤ max (keyCount st nm ad u) 1 := by
  intro uid rows
  induction rows with
  | nil =>
    intro st st' n nm ad u h
    simp only [insert_apartments_from_csv, Option.some.injEq, Prod.mk.injEq] at h
    exact h.1 ▸ Nat.le_max_left _ _
  | cons r rs ih =>
    intro st st' n nm ad u h
    unfold insert_apartments_from_csv at h
    split at h
    · cases h
    · exact ih st st' _ nm ad u h
    · next l hpr =>
      split at h
      · exact ih st st' _ nm ad u h
      · next hd =>
        split at h
        · cases h
        · next st2 n2 heq =>
          simp only [Option.some.injEq, Prod.mk.injEq] at h
          obtain ⟨h1, -⟩ := h
          subst h1
          have hb := ih (st ++ [l]) st2 n2 nm ad u heq
          by_cases hk : keyMatch nm ad u l = true
          · have hn : l.name = nm ∧ l.adress = ad ∧ l.user_id = u := by
              simpa [keyMatch] using hk
            rw [Bool.not_eq_true] at hd
            have huid : l.user_id = uid := (parseRow_cand hpr).1
            have hd0 : dedupHit st nm ad u = false := by
              rw [← hn.1, ← hn.2.1, ← hn.2.2, huid]
              exact hd
            have e1 : keyCount st nm ad u = 0 := dedupHit_false_count hd0
            have e1' : st.countP (keyMatch nm ad u) = 0 := e1
            have e2 : keyCount (st ++ [l]) nm ad u = 1 := by
              simp [keyCount, List.countP_append, List.countP_cons, hk, e1']
            rw [e2] at hb
            have hb1 : keyCount st2 nm ad u ≤ 1 := by simpa using hb
            rw [e1]
            simpa using hb1
          · have e2 : keyCount (st ++ [l]) nm ad u = keyCount st nm ad u := by
              simp [keyCount, List.countP_append, List.countP_cons, hk]
            rw [e2] at hb
            exact hb

set_option maxRecDepth 100000 in
set_option exponentiation.threshold 1100 in
/-- C10 witness: a file with two rows sharing the dedup key ("A", "B", 1)
inserts only the first; the key bound of the theorem holds at that input. -/
theorem c10_infile_dedup_at_most_once_witness :
    insert_apartments_from_csv 1
        [[("title", some "A"), ("address", some "B"),
          ("area_m2", some "50"), ("price_usd", some "10")],
         [("title", some "A"), ("address", some "B"),
          ("area_m2", some "60"), ("price_usd", some "20")]] [] =
      some ([⟨1, "A", "B", 50, PyNum.finite 10 0, 0, "Flat"⟩], 1) ∧
    keyCount [⟨1, "A", "B", 50, PyNum.finite 10 0, 0, "Flat"⟩] "A" "B" 1 ≤
      max (keyCount [] "A" "B" 1) 1 :=
  ⟨by decide,
   c10_infile_dedup_at_most_once 1
     [[("title", some "A"), ("address", some "B"),
       ("area_m2", some "50"), ("price_usd", some "10")],
      [("title", some "A"), ("address", some "B"),
       ("area_m2", some "60"), ("price_usd", some "20")]]
     [] [⟨1, "A", "B", 50, PyNum.finite 10 0, 0, "Flat"⟩] 1 "A" "B" 1 (by decide)⟩

/-- C2: the cost is read from `price_usd`, else `cost` (absent and empty
values fall through), with commas removed and whitespace trimmed, and parsed
as an exact decimal: "1,234.50" parses to coefficient 123450 with exponent
-2, whose exact value is 1234.50; a listing's stored cost is exactly the
parsed decimal; and a row whose cost field is missing or unparsable is never
inserted — it is silently skipped whenever the area check has not already
raised. -/
theorem c2_price_decimal (uid : Int) (row : Row) :
    (∀ s, rowGet row "price_usd" = some s → s ≠ "" → priceRawOf row = cleanNum s) ∧
    (rowGet row "price_usd" = none ∨ rowGet row "price_usd" = some "" →
      priceRawOf row = cleanNum (pyOrS (rowGet row "cost") "")) ∧
    (rowGet row "price_usd" = some "1,234.50" →
      parsePyDecimal (priceRawOf row) = some (PyNum.finite 123450 (-2)) ∧
      decValue 123450 (-2) = (1234.50 : ℚ)) ∧
    (∀ l d, parseRow uid row = RowResult.cand l →
      parsePyDecimal (priceRawOf row) = some d → l.cost = d) ∧
    (parsePyDecimal (priceRawOf row) = none → ∀ l, parseRow uid row ≠ RowResult.cand l) ∧
    (parsePyDecimal (priceRawOf row) = none → parseRow uid row ≠ RowResult.err →
      parseRow uid row = RowResult.skip) := by
  refine ⟨?_, ?_, ?_, ?_, ?_, ?_⟩
  · intro s hs hne
    unfold priceRawOf
    rw [hs]
    simp [pyOrS, hne]
  · intro h
    unfold priceRawOf
    rcases h with h | h <;> rw [h] <;> simp [pyOrS]
  · intro hs
    have hr : priceRawOf row = "1234.50" := by
      unfold priceRawOf
      rw [hs]
      have hp : pyOrS (some "1,234.50") (pyOrS (rowGet row "cost") "") = "1,234.50" := by
        simp [pyOrS]
      rw [hp]
      decide
    rw [hr]
    constructor
    · decide
    · simp [decValue]
      norm_num
  · intro l d hc hp
    have h8 := (parseRow_cand hc).2.2.2.2.2.2.2.1
    rw [hp] at h8
    injection h8 with h8
    exact h8.symm
  · intro hn l hc
    have h8 := (parseRow_cand hc).2.2.2.2.2.2.2.1
    rw [hn] at h8
    cases h8
  · intro hn hne
    by_cases hna : nameOf row = "" ∨ addressOf row = ""
    · unfold parseRow
      rw [if_pos hna]
    · rcases hfl : parsePyFloat (areaRawOf row) with - | cfe
      · unfold parseRow
        rw [if_neg hna, hfl]
      · rcases cfe with ⟨c, e⟩ | b | -
        · unfold parseRow
          rw [if_neg hna, hfl, hn]
        · exfalso
          apply hne
          unfold parseRow
          rw [if_neg hna, hfl]
        · unfold parseRow
          rw [if_neg hna, hfl]

set_option maxRecDepth 100000 in
set_option exponentiation.threshold 1100 in
/-- C2 witness: the conjuncts of `c2_price_decimal` at concrete rows — the
fallback to `cost`, the exact parse of "1,234.50", the stored cost of an
inserted row, and the silent skip of an unparsable cost. -/
theorem c2_price_decimal_witness :
    priceRawOf [("title", some "A"), ("price_usd", some " 2,5 ")] = cleanNum " 2,5 " ∧
    priceRawOf [("title", some "A"), ("cost", some "7")] =
      cleanNum (pyOrS (rowGet [("title", some "A"), ("cost", some "7")] "cost") "") ∧
    (parsePyDecimal
        (priceRawOf [("title", some "A"), ("price_usd", some "1,234.50")]) =
        some (PyNum.finite 123450 (-2)) ∧
      decValue 123450 (-2) = (1234.50 : ℚ)) ∧
    (⟨1, "A", "B", 50, PyNum.finite 10 0, 0, "Flat"⟩ : Listing).cost =
      PyNum.finite 10 0 ∧
    parseRow 1 [("title", some "A"), ("address", some "B"),
      ("area_m2", some "50"), ("price_usd", some "x")] ≠
      RowResult.cand ⟨1, "A", "B", 50, PyNum.finite 10 0, 0, "Flat"⟩ ∧
    parseRow 1 [("title", some "A"), ("address", some "B"),
      ("area_m2", some "50"), ("price_usd", some "x")] = RowResult.skip :=
  ⟨(c2_price_decimal 1 [("title", some "A"), ("price_usd", some " 2,5 ")]).1
      " 2,5 " (by decide) (by decide),
   (c2_price_decimal 1 [("title", some "A"), ("cost", some "7")]).2.1 (Or.inl (by decide)),
   (c2_price_decimal 1 [("title", some "A"), ("price_usd", some "1,234.50")]).2.2.1
      (by decide),
   (c2_price_decimal 1 [("title", some "A"), ("address", some "B"),
        ("area_m2", some "50"), ("price_usd", some "10")]).2.2.2.1
      ⟨1, "A", "B", 50, PyNum.finite 10 0, 0, "Flat"⟩ (PyNum.finite 10 0)
      (by decide) (by decide),
   (c2_price_decimal 1 [("title", some "A"), ("address", some "B"),
        ("area_m2", some "50"), ("price_usd", some "x")]).2.2.2.2.1 (by decide)
      ⟨1, "A", "B", 50, PyNum.finite 10 0, 0, "Flat"⟩,
   (c2_price_decimal 1 [("title", some "A"), ("address", some "B"),
        ("area_m2", some "50"), ("price_usd", some "x")]).2.2.2.2.2 (by decide)
      (by decide)⟩

/-- C3: the listing name is taken from `title`, else `name`, else `url`
(absent and empty values fall through), then trimmed, and the row is skipped
when the trimmed result is empty; likewise the address is taken from
`address`, else `adress`, trimmed, with the row skipped when empty; an
inserted listing carries exactly these trimmed non-empty values. -/
theorem c3_name_address_fallback (uid : Int) (row : Row) :
    (nameOf row = "" ∨ addressOf row = "" → parseRow uid row = RowResult.skip) ∧
    (∀ s, rowGet row "title" = some s → s ≠ "" → nameOf row = stripS s) ∧
    (rowGet row "title" = none ∨ rowGet row "title" = some "" →
      nameOf row = stripS (pyOrS (rowGet row "name") (pyOrS (rowGet row "url") ""))) ∧
    (∀ s, rowGet row "address" = some s → s ≠ "" → addressOf row = stripS s) ∧
    (rowGet row "address" = none ∨ rowGet row "address" = some "" →
      addressOf row = stripS (pyOrS (rowGet row "adress") "")) ∧
    (∀ l, parseRow uid row = RowResult.cand l →
      l.name = nameOf row ∧ l.adress = addressOf row ∧ l.name ≠ "" ∧ l.adress ≠ "") := by
  refine ⟨?_, ?_, ?_, ?_, ?_, ?_⟩
  · intro h
    unfold parseRow
    rw [if_pos h]
  · intro s hs hne
    unfold nameOf
    rw [hs]
    simp [pyOrS, hne]
  · intro h
    unfold nameOf
    rcases h with h | h <;> rw [h] <;> simp [pyOrS]
  · intro s hs hne
    unfold addressOf
    rw [hs]
    simp [pyOrS, hne]
  · intro h
    unfold addressOf
    rcases h with h | h <;> rw [h] <;> simp [pyOrS]
  · intro l h
    obtain ⟨-, h1, h2, -, -, h5, h6, -⟩ := parseRow_cand h
    exact ⟨h1, h2, fun hc => h5 (h1 ▸ hc), fun hc => h6 (h2 ▸ hc)⟩

set_option maxRecDepth 100000 in
set_option exponentiation.threshold 1100 in
/-- C3 witness: the conjuncts of `c3_name_address_fallback` at concrete
rows — a whitespace-only title trims to empty and the row is skipped even
though a `name` column is present; fallback from an empty `title` to `name`;
address fallback to the legacy `adress` column; the fields of an inserted
listing. -/
theorem c3_name_address_fallback_witness :
    parseRow 1 [("title", some " "), ("name", some "X"), ("address", some "B")] =
      RowResult.skip ∧
    nameOf [("title", some " T1 "), ("address", some "B")] = stripS " T1 " ∧
    nameOf [("title", some ""), ("name", some "N"), ("address", some "B")] =
      stripS (pyOrS (rowGet [("title", some ""), ("name", some "N"),
        ("address", some "B")] "name")
        (pyOrS (rowGet [("title", some ""), ("name", some "N"),
          ("address", some "B")] "url") "")) ∧
    addressOf [("title", some "A"), ("address", some " B ")] = stripS " B " ∧
    addressOf [("title", some "A"), ("adress", some "C")] =
      stripS (pyOrS (rowGet [("title", some "A"), ("adress", some "C")] "adress") "") ∧
    ((⟨1, "A", "B", 50, PyNum.finite 10 0, 0, "Flat"⟩ : Listing).name =
        nameOf [("title", some "A"), ("address", some "B"),
          ("area_m2", some "50"), ("price_usd", some "10")] ∧
      (⟨1, "A", "B", 50, PyNum.finite 10 0, 0, "Flat"⟩ : Listing).adress =
        addressOf [("title", some "A"), ("address", some "B"),
          ("area_m2", some "50"), ("price_usd", some "10")] ∧
      (⟨1, "A", "B", 50, PyNum.finite 10 0, 0, "Flat"⟩ : Listing).name ≠ "" ∧
      (⟨1, "A", "B", 50, PyNum.finite 10 0, 0, "Flat"⟩ : Listing).adress ≠ "") :=
  ⟨(c3_name_address_fallback 1
      [("title", some " "), ("name", some "X"), ("address", some "B")]).1
      (Or.inl (by decide)),
   (c3_name_address_fallback 1 [("title", some " T1 "), ("address", some "B")]).2.1
      " T1 " (by decide) (by decide),
   (c3_name_address_fallback 1
      [("title", some ""), ("name", some "N"), ("address", some "B")]).2.2.1
      (Or.inr (by decide)),
   (c3_name_address_fallback 1 [("title", some "A"), ("address", some " B ")]).2.2.2.1
      " B " (by decide) (by decide),
   (c3_name_address_fallback 1 [("title", some "A"), ("adress", some "C")]).2.2.2.2.1
      (Or.inl (by decide)),
   (c3_name_address_fallback 1 [("title", some "A"), ("address", some "B"),
      ("area_m2", some "50"), ("price_usd", some "10")]).2.2.2.2.2
      ⟨1, "A", "B", 50, PyNum.finite 10 0, 0, "Flat"⟩ (by decide)⟩

set_option maxRecDepth 100000 in
set_option exponentiation.threshold 1100 in
/-- C9 counterexample: the import pipeline does not enforce a non-negative
area — a CSV row with area "-5" is inserted as a listing whose area is the
negative integer -5, so not every listing created by the import satisfies
the non-negative-area invariant of the data model. -/
theorem c9_negative_area_counterexample :
    insert_apartments_from_csv 1
        [[("title", some "A"), ("address", some "B"),
          ("area_m2", some "-5"), ("price_usd", some "10")]] [] =
      some ([⟨1, "A", "B", -5, PyNum.finite 10 0, 0, "Flat"⟩], 1) ∧
    (⟨1, "A", "B", -5, PyNum.finite 10 0, 0, "Flat"⟩ : Listing).area < 0 :=
  ⟨by decide, by decide⟩

/-- C9 amended: every listing created by the import pipeline has the
importing owner, a non-empty name, a non-empty address, token count 0, and
an integer area — which may be negative, since the pipeline never checks the
sign; the type defaults to "Flat" when the CSV provides no `type` value or
an empty one. -/
theorem c9_import_invariants_amended :
    (∀ (uid : Int) (rows : List Row) (st st' : List Listing) (n : Nat),
      insert_apartments_from_csv uid rows st = some (st', n) →
      ∀ l ∈ st', l ∈ st ∨
        (l.user_id = uid ∧ l.name ≠ "" ∧ l.adress ≠ "" ∧ l.tokens = 0)) ∧
    (∀ (uid : Int) (row : Row) (l : Listing), parseRow uid row = RowResult.cand l →
      (rowGet row "type" = none ∨ rowGet row "type" = some "" → l.type = "Flat")) := by
  constructor
  · intro uid rows
    induction rows with
    | nil =>
      intro st st' n h
      simp only [insert_apartments_from_csv, Option.some.injEq, Prod.mk.injEq] at h
      intro l hl
      exact Or.inl (h.1 ▸ hl)
    | cons r rs ih =>
      intro st st' n h
      unfold insert_apartments_from_csv at h
      split at h
      · cases h
      · exact ih st st' _ h
      · next l0 hpr =>
        split at h
        · exact ih st st' _ h
        · split at h
          · cases h
          · next st2 n2 heq =>
            simp only [Option.some.injEq, Prod.mk.injEq] at h
            obtain ⟨h1, -⟩ := h
            subst h1
            intro l hl
            rcases ih (st ++ [l0]) st2 n2 heq l hl with hm | hp
            · rcases List.mem_append.mp hm with hm' | hm'
              · exact Or.inl hm'
              · obtain ⟨hu, h1, h2, ht, -, h5, h6, -⟩ :=
                  parseRow_cand hpr
                have hl0 : l = l0 := List.mem_singleton.mp hm'
                subst hl0
                exact Or.inr ⟨hu, fun hc => h5 (h1 ▸ hc), fun hc => h6 (h2 ▸ hc), ht⟩
            · exact Or.inr hp
  · intro uid row l h hty
    have ht := (parseRow_cand h).2.2.2.2.1
    rw [ht]
    unfold typeOf
    rcases hty with h' | h' <;> rw [h'] <;> decide

set_option maxRecDepth 100000 in
set_option exponentiation.threshold 1100 in
/-- C9 witness: the amended invariants at a concrete import — the single
inserted listing has owner 1, non-empty name and address, and 0 tokens, and
a row without a `type` column yields type "Flat". -/
theorem c9_import_invariants_amended_witness :
    ((⟨1, "A", "B", 50, PyNum.finite 10 0, 0, "Flat"⟩ : Listing) ∈
        ([] : List Listing) ∨
      ((⟨1, "A", "B", 50, PyNum.finite 10 0, 0, "Flat"⟩ : Listing).user_id = 1 ∧
        (⟨1, "A", "B", 50, PyNum.finite 10 0, 0, "Flat"⟩ : Listing).name ≠ "" ∧
        (⟨1, "A", "B", 50, PyNum.finite 10 0, 0, "Flat"⟩ : Listing).adress ≠ "" ∧
        (⟨1, "A", "B", 50, PyNum.finite 10 0, 0, "Flat"⟩ : Listing).tokens = 0)) ∧
    (⟨1, "A", "B", 50, PyNum.finite 10 0, 0, "Flat"⟩ : Listing).type = "Flat" :=
  ⟨c9_import_invariants_amended.1 1
      [[("title", some "A"), ("address", some "B"),
        ("area_m2", some "50"), ("price_usd", some "10")]]
      [] [⟨1, "A", "B", 50, PyNum.finite 10 0, 0, "Flat"⟩] 1 (by decide)
      ⟨1, "A", "B", 50, PyNum.finite 10 0, 0, "Flat"⟩ (by decide),
   c9_import_invariants_amended.2 1
      [("title", some "A"), ("address", some "B"),
        ("area_m2", some "50"), ("price_usd", some "10")]
      ⟨1, "A", "B", 50, PyNum.finite 10 0, 0, "Flat"⟩ (by decide)
      (Or.inl (by decide))⟩

set_option maxRecDepth 100000 in
set_option exponentiation.threshold 1100 in
/-- C4: the area field is read with fallback and comma/whitespace cleaning,
and a genuinely unparsable area ("abc") is skipped without aborting the
batch — but an area of "inf" parses as an infinite float, and
`int(float("inf"))` raises OverflowError, which `except (ValueError,
TypeError)` does not catch: the whole import aborts (modelled as `none`)
instead of skipping the row, contradicting the claim that every
non-real-parsable area row is skipped with the batch continuing. -/
theorem c4_inf_area_aborts :
    insert_apartments_from_csv 1
        [[("title", some "A"), ("address", some "B"),
          ("area_m2", some "50"), ("price_usd", some "10")],
         [("title", some "E"), ("address", some "F"),
          ("area_m2", some "inf"), ("price_usd", some "10")],
         [("title", some "C"), ("address", some "D"),
          ("area_m2", some "60"), ("price_usd", some "20")]] [] = none ∧
    insert_apartments_from_csv 1
        [[("title", some "A"), ("address", some "B"),
          ("area_m2", some "50"), ("price_usd", some "10")],
         [("title", some "E"), ("address", some "F"),
          ("area_m2", some "abc"), ("price_usd", some "10")],
         [("title", some "C"), ("address", some "D"),
          ("area_m2", some "60"), ("price_usd", some "20")]] [] =
      some ([⟨1, "A", "B", 50, PyNum.finite 10 0, 0, "Flat"⟩,
             ⟨1, "C", "D", 60, PyNum.finite 20 0, 0, "Flat"⟩], 2) ∧
    parseRow 1 [("title", some "E"), ("address", some "F"),
      ("area_m2", some "7.9"), ("price_usd", some "10")] =
      RowResult.cand ⟨1, "E", "F", 7, PyNum.finite 10 0, 0, "Flat"⟩ :=
  ⟨by decide, by decide, by decide⟩

set_option maxRecDepth 100000 in
set_option exponentiation.threshold 1100 in
/-- C8: `GET /user/{id}` on a missing id returns 404 and never an empty
success; the import returns 404 exactly when the owner or the resolved file
is missing, and success with a count when both exist and the rows are
benign — but a file whose only row has area "inf" makes the import raise
(a server fault) even though both preconditions hold, contradicting the
claim that success is returned whenever owner and file exist. -/
theorem c8_endpoint_eval :
    get_user [⟨1, "w", "n", "s"⟩] 7 = ApiResult.httpError 404 "User not found" ∧
    get_user [⟨1, "w", "n", "s"⟩] 1 = ApiResult.ok ⟨1, "w", "n", "s"⟩ ∧
    import_csv ⟨[], []⟩
        [("/srv/homepass/homes.csv",
          [[("title", some "A"), ("address", some "B"),
            ("area_m2", some "50"), ("price_usd", some "10")]])] 1 none =
      ApiResult.httpError 404 "User not found" ∧
    import_csv ⟨[⟨1, "w", "n", "s"⟩], []⟩ [] 1 none =
      ApiResult.httpError 404 "/srv/homepass/homes.csv not found" ∧
    import_csv ⟨[⟨1, "w", "n", "s"⟩], []⟩
        [("/srv/homepass/homes.csv",
          [[("title", some "A"), ("address", some "B"),
            ("area_m2", some "50"), ("price_usd", some "10")]])] 1 none =
      ApiResult.ok ("/srv/homepass/homes.csv", 1,
        [⟨1, "A", "B", 50, PyNum.finite 10 0, 0, "Flat"⟩]) ∧
    import_csv ⟨[⟨1, "w", "n", "s"⟩], []⟩
        [("/srv/homepass/homes.csv",
          [[("title", some "E"), ("address", some "F"),
            ("area_m2", some "inf"), ("price_usd", some "10")]])] 1 none =
      ApiResult.serverError :=
  ⟨by decide, by decide, by decide, by decide, by decide, by decide⟩

/-! ### Helper lemmas about path segmentation -/

theorem splitSlash_ne_nil (cs : List Char) : splitSlash cs ≠ [] := by
  cases cs with
  | nil => simp [splitSlash]
  | cons c rest =>
    simp only [splitSlash]
    split
    · simp
    · split <;> simp

theorem splitSlash_no_slash : ∀ (cs : List Char), ∀ s ∈ splitSlash cs, '/' ∉ s := by
  intro cs
  induction cs with
  | nil =>
    intro s hs
    simp [splitSlash] at hs
    subst hs
    simp
  | cons c rest ih =>
    intro s hs
    simp only [splitSlash] at hs
    by_cases hc : c = '/'
    · rw [if_pos hc] at hs
      rcases List.mem_cons.mp hs with h | h
      · subst h; simp
      · exact ih s h
    · rw [if_neg hc] at hs
      rcases hsp : splitSlash rest with - | ⟨s0, ss⟩
      · exact absurd hsp (splitSlash_ne_nil rest)
      · rw [hsp] at hs
        have hs0 : s0 ∈ splitSlash rest := by
          rw [hsp]; exact List.mem_cons_self s0 ss
        rcases List.mem_cons.mp hs with h | h
        · subst h
          intro hmem
          rcases List.mem_cons.mp hmem with h' | h'
          · exact hc h'.symm
          · exact ih s0 hs0 h'
        · refine ih s ?_
          rw [hsp]
          exact List.mem_cons_of_mem s0 h

theorem rawSegs_nil_all_slash : ∀ (cs : List Char), rawSegsL cs = [] → ∀ c ∈ cs, c = '/' := by
  intro cs
  induction cs with
  | nil => intro h c hc; cases hc
  | cons c rest ih =>
    intro h d hd
    unfold rawSegsL at h
    simp only [splitSlash] at h
    by_cases hc : c = '/'
    · rw [if_pos hc] at h
      have h' : rawSegsL rest = [] := by
        unfold rawSegsL
        simpa using h
      rcases List.mem_cons.mp hd with h2 | h2
      · exact h2.trans hc
      · exact ih h' d h2
    · exfalso
      rw [if_neg hc] at h
      rcases hsp : splitSlash rest with - | ⟨s0, ss⟩
      · exact splitSlash_ne_nil rest hsp
      · rw [hsp] at h
        simp at h

theorem splitSlash_cons_slash (cs : List Char) :
    splitSlash ('/' :: cs) = [] :: splitSlash cs := by
  simp [splitSlash]

theorem splitSlash_cons_ne (c : Char) (cs : List Char) (hc : c ≠ '/') :
    splitSlash (c :: cs) =
      match splitSlash cs with
      | [] => [[c]]
      | s :: ss => (c :: s) :: ss := by
  simp [splitSlash, hc]

theorem splitSlash_append (xs ys : List Char) :
    splitSlash (xs ++ '/' :: ys) = splitSlash xs ++ splitSlash ys := by
  induction xs with
  | nil => simp [splitSlash]
  | cons c rest ih =>
    rw [List.cons_append]
    by_cases hc : c = '/'
    · subst hc
      rw [splitSlash_cons_slash, splitSlash_cons_slash, ih, List.cons_append]
    · rw [splitSlash_cons_ne c _ hc, splitSlash_cons_ne c _ hc, ih]
      rcases hsp : splitSlash rest with - | ⟨s0, ss⟩
      · exact absurd hsp (splitSlash_ne_nil rest)
      · simp

theorem rawSegsL_append (xs ys : List Char) :
    rawSegsL (xs ++ '/' :: ys) = rawSegsL xs ++ rawSegsL ys := by
  unfold rawSegsL
  rw [splitSlash_append, List.filter_append]

theorem splitSlash_single : ∀ (s : List Char), s ≠ [] → '/' ∉ s → splitSlash s = [s] := by
  intro s
  induction s with
  | nil => intro h; cases h rfl
  | cons c rest ih =>
    intro _ hns
    have hc : c ≠ '/' := by
      intro h
      exact hns (by rw [← h]; exact List.mem_cons_self c rest)
    simp only [splitSlash]
    rw [if_neg hc]
    rcases hrest : rest with - | ⟨d, ds⟩
    · simp [splitSlash]
    · rw [← hrest]
      have hr : splitSlash rest = [rest] := by
        refine ih ?_ ?_
        · rw [hrest]; simp
        · intro hm
          exact hns (List.mem_cons_of_mem c hm)
      rw [hr]

theorem rawSegsL_single (s : List Char) (h1 : s ≠ []) (h2 : '/' ∉ s) :
    rawSegsL s = [s] := by
  unfold rawSegsL
  rw [splitSlash_single s h1 h2]
  simp [h1]

theorem rawSegsL_cons_slash (cs : List Char) : rawSegsL ('/' :: cs) = rawSegsL cs := by
  unfold rawSegsL
  simp [splitSlash]

theorem rawSegs_joinSegs : ∀ (P : List (List Char)),
    (∀ p ∈ P, p ≠ [] ∧ '/' ∉ p) → rawSegsL (joinSegs P) = P := by
  intro P
  induction P with
  | nil =>
    intro _
    simp [joinSegs, rawSegsL, splitSlash]
  | cons p ps ih =>
    intro h
    have hp := h p (List.mem_cons_self p ps)
    rcases hps : ps with - | ⟨q, qs⟩
    · subst hps
      show rawSegsL (joinSegs [p]) = [p]
      have hj : joinSegs [p] = p := rfl
      rw [hj]
      exact rawSegsL_single p hp.1 hp.2
    · subst hps
      have hj : joinSegs (p :: q :: qs) = p ++ '/' :: joinSegs (q :: qs) := rfl
      rw [hj, rawSegsL_append, rawSegsL_single p hp.1 hp.2,
        ih (fun x hx => h x (List.mem_cons_of_mem p hx))]
      rfl

theorem pathSegsL_props (cs : List Char) : ∀ q ∈ pathSegsL cs, q ≠ [] ∧ '/' ∉ q := by
  intro q hq
  unfold pathSegsL rawSegsL at hq
  have h1 := List.mem_filter.mp hq
  have h2 := List.mem_filter.mp h1.1
  refine ⟨?_, splitSlash_no_slash cs q h2.1⟩
  simpa using h2.2

theorem resolverParts_props (cs : List Char) :
    ∀ p ∈ resolverParts cs, p ≠ [] ∧ '/' ∉ p := by
  intro p hp
  simp only [resolverParts] at hp
  split at hp
  · split at hp
    · have : p = ['.'] := by simpa using hp
      subst this
      exact ⟨by simp, by decide⟩
    · exact pathSegsL_props cs p (List.drop_subset _ _ hp)
  · split at hp
    · split at hp
      · cases hp
      · have : p = ['.'] := by simpa using hp
        subst this
        exact ⟨by simp, by decide⟩
    · exact pathSegsL_props cs p hp

theorem dropLeadingPics_subset (l : List (List Char)) : dropLeadingPics l ⊆ l := by
  cases l with
  | nil => simp [dropLeadingPics]
  | cons p rest =>
    simp only [dropLeadingPics]
    split
    · exact List.subset_cons_self p rest
    · exact fun x hx => hx

/-- C5: the image URL resolver returns absent for absent and empty inputs,
and for every input path with no surviving segment once empty segments and a
leading case-insensitive "pictures" segment are dropped (in particular for
every path whose only non-empty segment is "pictures" in any casing). -/
theorem c5_resolver_absent_cases :
    (∀ v, (v = none ∨ v = some "") → _resolve_image_url v = none) ∧
    (∀ s : String, dropLeadingPics (rawSegsL s.data) = [] →
      _resolve_image_url (some s) = none) := by
  constructor
  · intro v hv
    rcases hv with h | h <;> subst h
    · rfl
    · rfl
  · intro s h
    by_cases hs : s = ""
    · subst hs; rfl
    · simp only [_resolve_image_url, if_neg hs]
      suffices hdp : dropLeadingPics (resolverParts s.data) = [] by
        rw [hdp]
        simp
      rcases hraw : rawSegsL s.data with - | ⟨p, rest⟩
      · have hall := rawSegs_nil_all_slash s.data hraw
        have hne : s.data ≠ [] := by
          intro hd
          exact hs (String.ext (by rw [hd]))
        have habs : isAbsL s.data = true := by
          rcases hd : s.data with - | ⟨c, cs⟩
          · exact absurd hd hne
          · have hc : c = '/' := hall c (by rw [hd]; exact List.mem_cons_self c cs)
            subst hc
            simp [isAbsL]
        have hpath : pathSegsL s.data = [] := by
          unfold pathSegsL
          rw [hraw]
          rfl
        simp only [resolverParts, hpath, habs]
        simp [rootSegsL, List.isPrefixOf, dropLeadingPics]
      · rw [hraw] at h
        simp only [dropLeadingPics] at h
        split at h
        · next hl =>
          subst h
          have hpneq : p ≠ ['.'] := by
            intro hd
            rw [hd] at hl
            exact absurd hl (by decide)
          have hpmem : p ∈ rawSegsL s.data := by
            rw [hraw]; exact List.mem_cons_self p []
          have hpath : pathSegsL s.data = [p] := by
            unfold pathSegsL
            rw [hraw]
            simp [hpneq]
          have hpref : rootSegsL.isPrefixOf [p] = false := by
            simp [rootSegsL, List.isPrefixOf]
          simp only [resolverParts, hpath, hpref, Bool.and_false, Bool.false_eq_true,
            if_false]
          simp [dropLeadingPics, hl]
        · cases h

/-- C5 witness: an absent input and the path "Pictures/" (whose only
non-empty segment is "pictures" up to case) both resolve to absent. -/
theorem c5_resolver_absent_cases_witness :
    _resolve_image_url none = none ∧ _resolve_image_url (some "Pictures/") = none :=
  ⟨c5_resolver_absent_cases.1 none (Or.inl rfl),
   c5_resolver_absent_cases.2 "Pictures/" (by decide)⟩

/-- C6 counterexample: the input "." resolves to the URL
`http://jumbo.galagen.net:2205/pictures/.`, whose path portion is
"/pictures/.", but resolving that path portion again returns absent rather
than the same URL — the resolver is not idempotent under re-normalisation. -/
theorem c6_not_idempotent_on_dot :
    _resolve_image_url (some ".") = some "http://jumbo.galagen.net:2205/pictures/." ∧
    urlPathPortion "http://jumbo.galagen.net:2205/pictures/." = "/pictures/." ∧
    _resolve_image_url (some "/pictures/.") = none ∧
    (none : Option String) ≠ some "http://jumbo.galagen.net:2205/pictures/." :=
  ⟨by decide, by decide, by decide, by decide⟩

theorem picBase_split : PICTURES_URL_BASE.data = URL_HOST.data ++ '/' :: picSeg := by
  decide

/-- C6 amended: the resolver is idempotent under re-normalisation for every
resolved URL whose path contains no lone-dot segment: if an input resolves
to a URL and the URL's path portion has no "." segment, resolving that path
portion again yields the same URL.  (The excluded case is real: inputs that
normalise to the pictures root or to ".", whose URL path portion is
"/pictures/.", re-resolve to absent.) -/
theorem c6_resolver_idempotent_amended (v u : String)
    (h : _resolve_image_url (some v) = some u)
    (hdot : ['.'] ∉ rawSegsL (urlPathPortion u).data) :
    _resolve_image_url (some (urlPathPortion u)) = some u := by
  by_cases hv : v = ""
  · rw [hv] at h
    have hnone : _resolve_image_url (some "") = none := rfl
    rw [hnone] at h
    cases h
  · simp only [_resolve_image_url, if_neg hv] at h
    by_cases hp0 : dropLeadingPics (resolverParts v.data) = []
    · rw [if_pos hp0] at h
      cases h
    · rw [if_neg hp0] at h
      injection h with hu
      set P := dropLeadingPics (resolverParts v.data) with hPdef
      have hprops : ∀ p ∈ P, p ≠ [] ∧ '/' ∉ p := by
        intro p hp
        rw [hPdef] at hp
        exact resolverParts_props v.data p (dropLeadingPics_subset _ hp)
      have hudata : u.data = URL_HOST.data ++ ('/' :: (picSeg ++ '/' :: joinSegs P)) := by
        rw [← hu]
        show PICTURES_URL_BASE.data ++ '/' :: joinSegs P =
          URL_HOST.data ++ ('/' :: (picSeg ++ '/' :: joinSegs P))
        rw [picBase_split, List.append_assoc]
        rfl
      have hportion : (urlPathPortion u).data = '/' :: (picSeg ++ '/' :: joinSegs P) := by
        show u.data.drop URL_HOST.data.length = _
        rw [hudata, List.drop_left]
      have hraw2 : rawSegsL (urlPathPortion u).data = picSeg :: P := by
        rw [hportion, rawSegsL_cons_slash, rawSegsL_append,
          rawSegsL_single picSeg (by decide) (by decide), rawSegs_joinSegs P hprops]
        rfl
      have hdotP : ['.'] ∉ P := by
        intro hm
        exact hdot (by rw [hraw2]; exact List.mem_cons_of_mem _ hm)
      have hvne : urlPathPortion u ≠ "" := by
        intro he
        have hc := congrArg String.data he
        rw [hportion] at hc
        cases hc
      have hpath2 : pathSegsL (urlPathPortion u).data = picSeg :: P := by
        unfold pathSegsL
        rw [hraw2]
        refine List.filter_eq_self.mpr ?_
        intro a ha
        rcases List.mem_cons.mp ha with h' | h'
        · subst h'
          decide
        · have hne : a ≠ ['.'] := fun hd => hdotP (hd ▸ h')
          simpa using hne
      have habs2 : isAbsL (urlPathPortion u).data = true := by
        rw [hportion]
        rfl
      have hpref : rootSegsL.isPrefixOf (picSeg :: P) = false := by
        have h1 : ((['s', 'r', 'v'] : List Char) == picSeg) = false := by decide
        simp [rootSegsL, List.isPrefixOf, h1]
      have hparts : resolverParts (urlPathPortion u).data = picSeg :: P := by
        simp [resolverParts, hpath2, habs2, hpref]
      simp only [_resolve_image_url, if_neg hvne]
      rw [hparts]
      have hlp : lowerSeg picSeg = picSeg := by decide
      have hdlp : dropLeadingPics (picSeg :: P) = P := by
        simp [dropLeadingPics, hlp]
      rw [hdlp, if_neg hp0, hu]

set_option maxRecDepth 100000 in
/-- C6 witness: the input "a/b.jpg" resolves to
`http://jumbo.galagen.net:2205/pictures/a/b.jpg`; feeding the URL's path
portion "/pictures/a/b.jpg" back into the resolver returns the same URL. -/
theorem c6_resolver_idempotent_amended_witness :
    _resolve_image_url
        (some (urlPathPortion "http://jumbo.galagen.net:2205/pictures/a/b.jpg")) =
      some "http://jumbo.galagen.net:2205/pictures/a/b.jpg" :=
  c6_resolver_idempotent_amended "a/b.jpg"
    "http://jumbo.galagen.net:2205/pictures/a/b.jpg" (by decide) (by decide)

theorem resolve_ne_empty (o : Option String) (s : String)
    (h : _resolve_image_url o = some s) : s ≠ "" := by
  rcases o with - | v
  · cases h
  · by_cases hv : v = ""
    · rw [hv] at h
      have hnone : _resolve_image_url (some "") = none := rfl
      rw [hnone] at h
      cases h
    · simp only [_resolve_image_url, if_neg hv] at h
      split at h
      · cases h
      · injection h with h'
        intro he
        have hc := congrArg String.data h'
        rw [he] at hc
        simp [PICTURES_URL_BASE] at hc

/-- C7: the row enricher assigns to every listing an `images` sequence built
from that listing's own pictures — a permutation of the pictures whose
listing reference matches, ordered primary-first then by identifier
ascending — with each file path mapped through the image URL resolver and
every absent result omitted (the code's truthiness filter coincides with
dropping absent results because a resolved URL is never empty); the sequence
may be empty. -/
theorem c7_row_enricher (pics : List Picture) (rows : List ListingRead)
    (r : ListingRead) :
    (picQuery pics r.id).Perm (pics.filter (fun p => p.apartment_id = r.id)) ∧
    List.Sorted picLE (picQuery pics r.id) ∧
    keepTruthy = _resolve_image_url ∧
    imagesFor pics r.id =
      ((picQuery pics r.id).map Picture.file_path).filterMap _resolve_image_url ∧
    _attach_images pics rows =
      rows.map (fun x => { x with images := imagesFor pics x.id }) ∧
    (r ∈ rows → { r with images := imagesFor pics r.id } ∈ _attach_images pics rows) := by
  have hkt : keepTruthy = _resolve_image_url := by
    funext o
    unfold keepTruthy
    rcases hro : _resolve_image_url o with - | s
    · rfl
    · show (if s = "" then none else some s) = some s
      rw [if_neg (resolve_ne_empty o s hro)]
  refine ⟨List.perm_insertionSort picLE _, List.sorted_insertionSort picLE _, hkt,
    ?_, rfl, ?_⟩
  · show (_get_image_paths pics r.id).filterMap keepTruthy = _
    rw [hkt]
    rfl
  · intro hr
    exact List.mem_map_of_mem _ hr

set_option maxRecDepth 100000 in
/-- C7 witness: enriching one concrete listing with two pictures (one
primary) assigns it exactly the resolved, ordered image list. -/
theorem c7_row_enricher_witness :
    (⟨10, "n", "a", none, none, none, none,
        imagesFor [⟨1, 10, some "pictures/a.jpg", false⟩,
          ⟨2, 10, some "b.jpg", true⟩] 10⟩ : ListingRead) ∈
      _attach_images
        [⟨1, 10, some "pictures/a.jpg", false⟩, ⟨2, 10, some "b.jpg", true⟩]
        [⟨10, "n", "a", none, none, none, none, []⟩] :=
  (c7_row_enricher [⟨1, 10, some "pictures/a.jpg", false⟩, ⟨2, 10, some "b.jpg", true⟩]
      [⟨10, "n", "a", none, none, none, none, []⟩]
      ⟨10, "n", "a", none, none, none, none, []⟩).2.2.2.2.2 (by decide)
